import Mathlib

/-!
Verification of the numerical core of the Transformer-based text
classifier (Rust sources under `src/`), against its natural-language
specification.  Matrices of 64-bit floats are modelled as lists of rows
over `ℝ` (for the `ndarray`/`Vec<Vec<f64>>` code) or as an explicit
dimension-carrying structure (for the `Array2` attention code, where a
matrix with zero rows still carries a column count).  Panicking
assertions become `Option` results (`none` = precondition violation).
-/

noncomputable section

open Real

/-! ### Configuration constants (src/configurration/config.rs) -/

def LEARNING_RATE : ℝ := 0.001

def BETA1 : ℝ := 0.9

def BETA2 : ℝ := 0.999

def EPSILON : ℝ := 1e-8

def PAD_TOKEN : String := "[PAD]"

def UNK_TOKEN : String := "[UNK]"

/-! ### List helpers shared by the embeddings -/

/-- Mean of a list of reals, as computed by the Rust code:
`sum / (len as f64)` (an empty list yields `0/0 = 0` in this model). -/
def listMean (l : List ℝ) : ℝ := l.sum / l.length

/-- Biased variance of a list of reals, as computed by the Rust code:
`Σ (x - mean)^2 / len`. -/
def listVar (l : List ℝ) : ℝ :=
  (l.map (fun x => (x - listMean l) ^ 2)).sum / l.length

/-! ### Trainer parameter update (src/training/trainer.rs lines 62-67)

The Rust loop is
`for (param, grad) in params.iter_mut().zip(gradients.iter()) { **param -= LEARNING_RATE * grad; }`.
`zip` stops at the shorter of the two iterators, so parameters beyond the
gradient count keep their previous value. -/

def trainer_update_params : List ℝ → List ℝ → List ℝ
  | ps, [] => ps
  | [], _ :: _ => []
  | p :: ps, g :: gs => (p - LEARNING_RATE * g) :: trainer_update_params ps gs

/-! ### Matrices as lists of rows -/

/-- A dense 2D matrix of 64-bit floats, modelled as a list of rows. -/
def Matrix' : Type := List (List ℝ)

/-- Elementwise combination of two matrices (`ndarray::zip_mut_with`). -/
def mZip (f : ℝ → ℝ → ℝ) (A B : List (List ℝ)) : List (List ℝ) :=
  List.zipWith (List.zipWith f) A B

/-- Elementwise map over a matrix (`ndarray::mapv`). -/
def mMap (f : ℝ → ℝ) (A : List (List ℝ)) : List (List ℝ) :=
  A.map (List.map f)

/-- Sum of all entries of a matrix, row-major
(`.iter().fold(0.0, |acc, &val| acc + val)`). -/
def mSum (A : List (List ℝ)) : ℝ := (A.map List.sum).sum

/-- `Array2::zeros(params.raw_dim())`: a zero matrix of the same shape. -/
def zerosLike (A : List (List ℝ)) : List (List ℝ) := mMap (fun _ => 0) A

/-- The shape of a list-of-rows matrix, as the list of row lengths
(`ndarray` matrices are rectangular, so equal row-length lists model
`params.shape() == grads.shape()`). -/
def mShape (A : List (List ℝ)) : List ℕ := A.map List.length

/-! ### Optimizer (src/model_optimizer/optimizer.rs) -/

inductive OptimizerType where
  | SGD
  | Adam

structure Optimizer where
  optimizer_type : OptimizerType
  learning_rate : ℝ
  beta1 : ℝ
  beta2 : ℝ
  epsilon : ℝ
  moment1 : Option (List (List ℝ))
  moment2 : Option (List (List ℝ))
  timestep : ℕ

/-- `Optimizer::new`: hyperparameters from the configuration constants,
no moment estimates, timestep 0. -/
def Optimizer.new (t : OptimizerType) : Optimizer :=
  { optimizer_type := t
    learning_rate := LEARNING_RATE
    beta1 := BETA1
    beta2 := BETA2
    epsilon := EPSILON
    moment1 := none
    moment2 := none
    timestep := 0 }

/-- `Optimizer::sgd_step`: asserts equal shapes, then
`param -= learning_rate * grad` elementwise.  Takes `&self`, so the
optimizer state cannot change. -/
def Optimizer.sgd_step (o : Optimizer) (params grads : List (List ℝ)) :
    Option (List (List ℝ)) :=
  if mShape params = mShape grads then
    some (mZip (fun p g => p - o.learning_rate * g) params grads)
  else none

/-- `Optimizer::adam_step`: asserts equal shapes, lazily zero-initialises
the moment matrices, increments the timestep, updates and bias-corrects
both moments, and then updates each parameter as
`param -= learning_rate * m1 / D` where `D` is the **sum over all
entries** of `sqrt(bias_corrected_m2) + epsilon`
(`(bias_corrected_m2.mapv(f64::sqrt) + self.epsilon).iter().fold(0.0, |acc, &val| acc + val)`),
a scalar, not the elementwise divisor its inline comment announces. -/
def Optimizer.adam_step (o : Optimizer) (params grads : List (List ℝ)) :
    Option (Optimizer × List (List ℝ)) :=
  if mShape params = mShape grads then
    let m1prev := o.moment1.getD (zerosLike params)
    let m2prev := o.moment2.getD (zerosLike params)
    let t := o.timestep + 1
    let moment1 := mZip (fun m g => o.beta1 * m + (1 - o.beta1) * g) m1prev grads
    let moment2 := mZip (fun m g => o.beta2 * m + (1 - o.beta2) * g ^ 2) m2prev grads
    let bias_corrected_m1 := mMap (fun m => m / (1 - o.beta1 ^ t)) moment1
    let bias_corrected_m2 := mMap (fun m => m / (1 - o.beta2 ^ t)) moment2
    let divisor := mSum (mMap (fun v => Real.sqrt v + o.epsilon) bias_corrected_m2)
    let params2 := mZip (fun p m => p - o.learning_rate * m / divisor) params bias_corrected_m1
    some ({ o with moment1 := some moment1, moment2 := some moment2, timestep := t },
          params2)
  else none

/-- `Optimizer::step`: dispatches on the optimizer type; the SGD branch
returns the state unchanged (the Rust method takes `&self`). -/
def Optimizer.step (o : Optimizer) (params grads : List (List ℝ)) :
    Option (Optimizer × List (List ℝ)) :=
  match o.optimizer_type with
  | OptimizerType.SGD => (o.sgd_step params grads).map (fun m => (o, m))
  | OptimizerType.Adam => o.adam_step params grads

/-! ### Positional encodings
(src/positional_encoding/positional_encoder.rs and
src/embedding/embeddings.rs) -/

/-- `position_encoding_calculator` (positional_encoder.rs): entry
`(pos, dim)` uses the angle `pos / 10000^(dim / D)` — the module's
header comment says the original formula was tweaked. -/
def position_encoding_calculator (sequence_length embedding_dimensions : ℕ) :
    List (List ℝ) :=
  (List.range sequence_length).map (fun (pos : ℕ) =>
    (List.range embedding_dimensions).map (fun (dim : ℕ) =>
      let angle := (pos : ℝ) / (10000 : ℝ) ^ ((dim : ℝ) / (embedding_dimensions : ℝ))
      if dim % 2 = 0 then Real.sin angle else Real.cos angle))

/-- `Embeddings::generate_positional_encodings` (embeddings.rs): entry
`(pos, i)` uses the angle `pos / 10000^((2*(i/2)) / model_dim)` with
integer division `i/2`. -/
def generate_positional_encodings (model_dim seq_len : ℕ) : List (List ℝ) :=
  (List.range seq_len).map (fun (pos : ℕ) =>
    (List.range model_dim).map (fun (i : ℕ) =>
      let angle := (pos : ℝ) / (10000 : ℝ) ^ (((2 * (i / 2) : ℕ) : ℝ) / (model_dim : ℝ))
      if i % 2 = 0 then Real.sin angle else Real.cos angle))

/-! ### Layer normalization (src/layer_norm/layer_norm_impl.rs) -/

/-- `apply_layer_norm`: per-instance normalization
`gamma[i] * ((x - mean) / sqrt(variance + epsilon)) + beta[i]`, with the
(biased) variance; the Rust asserts that `gamma` and `beta` have the
input's length, which indexing by `getD` presumes here. -/
def apply_layer_norm (inputs : List ℝ) (epsilon : ℝ) (gamma beta : List ℝ) :
    List ℝ :=
  let mean := inputs.sum / (inputs.length : ℝ)
  let variance := (inputs.map (fun x => (x - mean) ^ 2)).sum / (inputs.length : ℝ)
  inputs.mapIdx (fun i x =>
    gamma.getD i 0 * ((x - mean) / Real.sqrt (variance + epsilon)) + beta.getD i 0)

/-! ### Attention (src/attention/attention.rs, Vec of Vec of f32, and
src/attention/attention_mechanism.rs, ndarray Array2 of f64) -/

/-- `f64::MIN`, the seed of the `fold(f64::MIN, f64::max)` row-maximum
folds: `-(2^1024 - 2^971)`. -/
def f64MIN : ℝ := -((2 : ℝ) ^ (1024 : ℕ) - (2 : ℝ) ^ (971 : ℕ))

/-- `f32::MIN`, the seed of the `fold(f32::MIN, f32::max)` row-maximum
fold in the f32 attention code: `-(2^128 - 2^104)`. -/
def f32MIN : ℝ := -((2 : ℝ) ^ (128 : ℕ) - (2 : ℝ) ^ (104 : ℕ))

/-- Numerically-stabilized softmax of one row, as implemented in both the
loss and the attention code: fold the maximum (seeded with the float
minimum), subtract it, exponentiate, and normalize by the row sum of
exponentials. -/
def stableSoftmaxRow (init : ℝ) (row : List ℝ) : List ℝ :=
  let m := row.foldl max init
  let s := (row.map (fun v => Real.exp (v - m))).sum
  row.map (fun v => Real.exp (v - m) / s)

/-- `scaled_dot_product_attention` (attention.rs): asserts non-empty
inputs, equal Q/K column counts and equal K/V row counts; computes
`softmax(Q·Kᵀ/√d_k)·V`.  Row-index accesses on the (rectangular) inputs
are modelled with `getD`. -/
def scaled_dot_product_attention (query key value : List (List ℝ)) :
    Option (List (List ℝ)) :=
  if query.isEmpty ∨ key.isEmpty ∨ value.isEmpty then none
  else if (query.headD []).length ≠ (key.headD []).length then none
  else if key.length ≠ value.length then none
  else
    let d_k := ((key.headD []).length : ℝ)
    some (query.map (fun qrow =>
      let scores := key.map (fun krow =>
        (List.zipWith (fun q k => q * k) qrow krow).sum / Real.sqrt d_k)
      let weights := stableSoftmaxRow f32MIN scores
      (List.range ((value.headD []).length)).map (fun j =>
        (List.zipWith (fun w vrow => w * vrow.getD j 0) weights value).sum)))

/-- An `ndarray::Array2<f64>`: explicit row and column counts (a matrix
with zero rows still has a column count) and an entry function. -/
structure Mat where
  rows : ℕ
  cols : ℕ
  entry : ℕ → ℕ → ℝ

/-- `scaled_dot_product_attention` (attention_mechanism.rs): asserts only
`Q.cols = K.cols` and `K.rows = V.rows` — there is **no** emptiness
check; computes `softmax(Q·Kᵀ/√d_k)·V`. -/
def am_scaled_dot_product_attention (query key value : Mat) : Option Mat :=
  if query.cols ≠ key.cols then none
  else if key.rows ≠ value.rows then none
  else
    let d_k := (key.cols : ℝ)
    let score : ℕ → ℕ → ℝ := fun i j =>
      ((List.range query.cols).map (fun l => query.entry i l * key.entry j l)).sum
        / Real.sqrt d_k
    let soft : ℕ → ℕ → ℝ := fun i j =>
      (stableSoftmaxRow f64MIN ((List.range key.rows).map (score i))).getD j 0
    some ⟨query.rows, value.cols, fun i j =>
      ((List.range key.rows).map (fun l => soft i l * value.entry l j)).sum⟩

/-! ### Loss (src/cross_entropy/loss.rs) -/

/-- `Loss::softmax`: row-wise stabilized softmax (fold the row max seeded
with `f64::MIN`, subtract, exponentiate, normalize). -/
def Loss.softmax (logits : List (List ℝ)) : List (List ℝ) :=
  logits.map (stableSoftmaxRow f64MIN)

/-- `Loss::cross_entropy_loss`: asserts one label per logit row and each
label below the class-column count, then returns
`-(Σ_i ln softmax(logits)[i][label_i]) / batch_size`. -/
def Loss.cross_entropy_loss (logits : List (List ℝ)) (labels : List ℕ) :
    Option ℝ :=
  if logits.length = labels.length ∧ ∀ l ∈ labels, l < (logits.headD []).length then
    some ((-(labels.mapIdx (fun i label =>
        Real.log (((Loss.softmax logits).getD i []).getD label 0))).sum)
      / (labels.length : ℝ))
  else none

/-- `Loss::gradients`: softmax of the logits with 1 subtracted at each
`(i, label_i)` (for `i` ranging over the labels), then divided by the
batch size.  No shape assertion is performed by this function. -/
def Loss.gradients (logits : List (List ℝ)) (labels : List ℕ) :
    List (List ℝ) :=
  ((Loss.softmax logits).mapIdx (fun i row =>
    row.mapIdx (fun j p =>
      if i < labels.length ∧ j = labels.getD i 0 then p - 1 else p))).map
    (List.map (fun v => v / (labels.length : ℝ)))

/-! ### Embeddings (src/embedding/embeddings.rs) -/

/-- `Embeddings` state: the trainable lookup matrix, the vocabulary
(modelled as its lookup function `HashMap::get`), and the embedding
dimension. -/
structure Embeddings where
  token_embedding_matrix : List (List ℝ)
  vocab : String → Option ℕ
  model_dim : ℕ

/-- `Embeddings::encode`: one row per token id — the lookup row when the
id is in range, otherwise the row at index
`vocab.get("<UNK>").copied().unwrap_or(0)` (the string is hard-coded as
`"<UNK>"`, not the configured `UNK_TOKEN = "[UNK]"`); then the positional
encodings for the sequence length are added elementwise. -/
def Embeddings.encode (e : Embeddings) (tokenized_input : List ℕ) :
    List (List ℝ) :=
  let rows := tokenized_input.map (fun token_idx =>
    if token_idx < e.token_embedding_matrix.length then
      e.token_embedding_matrix.getD token_idx []
    else
      e.token_embedding_matrix.getD ((e.vocab ("<UNK>")).getD 0) [])
  mZip (fun a b => a + b) rows
    (generate_positional_encodings e.model_dim tokenized_input.length)

/-- A two-row embedding fixture whose vocabulary holds exactly the
configured special tokens: `[PAD]` at index 0 (row `[1, 0]`) and
`[UNK]` at index 1 (row `[5, 7]`). -/
def unkDemoEmbeddings : Embeddings :=
  { token_embedding_matrix := [[1, 0], [5, 7]]
    vocab := fun s =>
      if s = PAD_TOKEN then some 0 else if s = UNK_TOKEN then some 1 else none
    model_dim := 2 }

/-! ### Transformer average pooling (src/transformer/transformer.rs) -/

/-- `Transformer::average_pooling`: per sequence, an explicit empty-case
fallback to the zero vector of length `d_model`; otherwise the
accumulated sum of the token vectors divided by the sequence length. -/
def average_pooling (d_model : ℕ) (encoder_output : List (List (List ℝ))) :
    List (List ℝ) :=
  encoder_output.map (fun sequence =>
    if sequence.length = 0 then List.replicate d_model 0
    else
      let sum_vec := sequence.foldl
        (fun acc token_vec => acc.mapIdx (fun i a => a + token_vec.getD i 0))
        (List.replicate d_model 0)
      sum_vec.map (fun v => v / (sequence.length : ℝ)))

/-! ## Theorems -/

theorem sum_map_div (x : List ℝ) (h : ℝ → ℝ) (d : ℝ) :
    (x.map (fun t => h t / d)).sum = (x.map h).sum / d := by
  induction x with
  | nil => simp
  | cons a l ih =>
      simp only [List.map_cons, List.sum_cons, ih]
      ring

theorem sum_map_sub (x : List ℝ) (m : ℝ) :
    (x.map (fun t => t - m)).sum = x.sum - x.length * m := by
  induction x with
  | nil => simp
  | cons a l ih =>
      simp only [List.map_cons, List.sum_cons, ih, List.length_cons]
      push_cast
      ring

theorem replicate_getD_lt {α : Type} (n i : ℕ) (c d : α) (h : i < n) :
    (List.replicate n c).getD i d = c := by
  rw [List.getD_eq_getElem?_getD, List.getElem?_replicate, if_pos h]
  rfl

theorem layer_norm_ones_zeros (x : List ℝ) (ε : ℝ) :
    apply_layer_norm x ε (List.replicate x.length 1) (List.replicate x.length 0)
      = x.map (fun t => (t - listMean x) / Real.sqrt (listVar x + ε)) := by
  apply List.ext_get
  · simp [apply_layer_norm]
  · intro i h1 h2
    have hx : i < x.length := by simpa using h2
    simp only [apply_layer_norm]
    rw [List.get_mapIdx _ _ _ hx, List.get_map,
        replicate_getD_lt _ _ _ _ hx, replicate_getD_lt _ _ _ _ hx]
    simp only [listMean, listVar, one_mul, add_zero]

theorem range_map_getD {α : Type} (n : ℕ) (f : ℕ → α) (d : α) (i : ℕ)
    (h : i < n) : ((List.range n).map f).getD i d = f i := by
  rw [List.getD_eq_getElem?_getD, List.getElem?_map, List.getElem?_range h]
  rfl

theorem trainer_update_params_nil (ps : List ℝ) :
    trainer_update_params ps [] = ps := by
  cases ps <;> rfl

theorem trainer_update_params_length (ps gs : List ℝ) :
    (trainer_update_params ps gs).length = ps.length := by
  induction ps generalizing gs with
  | nil => cases gs <;> rfl
  | cons p ps ih =>
      cases gs with
      | nil => rfl
      | cons g gs => simp [trainer_update_params, ih]

theorem trainer_update_params_get_lt (ps gs : List ℝ) (i : ℕ)
    (hps : i < ps.length) (hgs : i < gs.length) :
    (trainer_update_params ps gs).getD i 0
      = ps.getD i 0 - LEARNING_RATE * gs.getD i 0 := by
  induction ps generalizing gs i with
  | nil => simp at hps
  | cons p ps ih =>
      cases gs with
      | nil => simp at hgs
      | cons g gs =>
          cases i with
          | zero => simp [trainer_update_params]
          | succ i =>
              simpa [trainer_update_params] using
                ih gs i (by simpa using hps) (by simpa using hgs)

theorem trainer_update_params_get_ge (ps gs : List ℝ) (i : ℕ)
    (hgs : gs.length ≤ i) :
    (trainer_update_params ps gs).getD i 0 = ps.getD i 0 := by
  induction ps generalizing gs i with
  | nil => cases gs <;> rfl
  | cons p ps ih =>
      cases gs with
      | nil => rw [trainer_update_params_nil]
      | cons g gs =>
          cases i with
          | zero => simp at hgs
          | succ i =>
              simpa [trainer_update_params] using
                ih gs i (by simpa using hgs)

/-- Claim C1 (counterexample): with two trainable scalars `[1, 2]` and a
single gradient value `[1]`, the update step of `Trainer::train` does not
decrement every parameter by `LEARNING_RATE` times a gradient paired with
it by iteration order: the parameter at index 1 has no paired gradient
(and is left unchanged), refuting the claim as stated. -/
theorem trainer_update_truncates_cex :
    ¬ ∀ i, i < ([(1 : ℝ), 2] : List ℝ).length →
        ∃ h : i < ([(1 : ℝ)] : List ℝ).length,
          (trainer_update_params [1, 2] [1]).getD i 0
            = ([(1 : ℝ), 2] : List ℝ).getD i 0
              - LEARNING_RATE * ([(1 : ℝ)] : List ℝ).get ⟨i, h⟩ := by
  intro h
  obtain ⟨h1, -⟩ := h 1 (by norm_num)
  exact absurd h1 (by norm_num)

/-- Claim C1 (amended): for each training batch, the update step of
`Trainer::train` pairs parameters with gradient values by iteration order
and decrements parameter `i` by `LEARNING_RATE` times gradient `i` for
every `i < min(#params, #grads)`; parameters with index at or beyond the
gradient count are left unchanged, and the parameter count is
preserved. -/
theorem trainer_update_amended (ps gs : List ℝ) :
    (∀ i, i < ps.length → i < gs.length →
        (trainer_update_params ps gs).getD i 0
          = ps.getD i 0 - LEARNING_RATE * gs.getD i 0)
    ∧ (∀ i, gs.length ≤ i →
        (trainer_update_params ps gs).getD i 0 = ps.getD i 0)
    ∧ (trainer_update_params ps gs).length = ps.length :=
  ⟨fun i hp hg => trainer_update_params_get_lt ps gs i hp hg,
   fun i hg => trainer_update_params_get_ge ps gs i hg,
   trainer_update_params_length ps gs⟩

/-- Witness for `trainer_update_amended` at params `[1, 2]`, grads `[1]`:
the first parameter becomes `1 - LEARNING_RATE * 1` and the second is
unchanged. -/
theorem trainer_update_amended_witness :
    (trainer_update_params [1, 2] [1]).getD 0 0 = 1 - LEARNING_RATE * 1
      ∧ (trainer_update_params [1, 2] [1]).getD 1 0 = 2 := by
  constructor
  · have h := (trainer_update_amended [1, 2] [1]).1 0 (by norm_num) (by norm_num)
    simpa using h
  · have h := (trainer_update_amended [1, 2] [1]).2.1 1 (by norm_num)
    simpa using h

theorem zipWith_getD_zero (f : ℝ → ℝ → ℝ) (h0 : f 0 0 = 0) :
    ∀ (as bs : List ℝ), as.length = bs.length →
      ∀ j, (List.zipWith f as bs).getD j 0 = f (as.getD j 0) (bs.getD j 0) := by
  intro as
  induction as with
  | nil =>
      intro bs hlen j
      have : bs = [] := List.length_eq_zero.mp (by simpa using hlen.symm)
      subst this
      simpa using h0.symm
  | cons a as ih =>
      intro bs hlen j
      cases bs with
      | nil => simp at hlen
      | cons b bs =>
          cases j with
          | zero => simp
          | succ j =>
              simpa using ih bs (by simpa using hlen) j

theorem mZip_getD_zero (f : ℝ → ℝ → ℝ) (h0 : f 0 0 = 0) :
    ∀ (A B : List (List ℝ)), mShape A = mShape B →
      ∀ i j, ((mZip f A B).getD i []).getD j 0
        = f ((A.getD i []).getD j 0) ((B.getD i []).getD j 0) := by
  intro A
  induction A with
  | nil =>
      intro B hsh i j
      have : B = [] := by
        have := congrArg List.length hsh
        simpa [mShape] using List.length_eq_zero.mp (by simpa [mShape] using this.symm)
      subst this
      simpa [mZip] using h0.symm
  | cons r A ih =>
      intro B hsh i j
      cases B with
      | nil => simp [mShape] at hsh
      | cons r2 B =>
          simp only [mShape, List.map_cons, List.cons.injEq] at hsh
          cases i with
          | zero =>
              simpa [mZip] using zipWith_getD_zero f h0 r r2 hsh.1 j
          | succ i =>
              simpa [mZip] using ih B hsh.2 i j

/-- Claim C8: a plain-gradient-descent step leaves the optimizer state
untouched (`sgd_step` takes `&self`; `step` re-returns the same state)
and replaces every entry by `p - learning_rate * g`; in particular, on
params `[[1,2],[3,4]]`, grads `[[0.1,0.2],[0.3,0.4]]` with the configured
learning rate `0.001`, one step yields exactly
`[[0.9999, 1.9998], [2.9997, 3.9996]]`. -/
theorem sgd_step_correct :
    (∀ (o : Optimizer) (params grads : List (List ℝ)) st out,
        o.optimizer_type = OptimizerType.SGD →
        o.step params grads = some (st, out) →
        st = o ∧ ∀ i j, (out.getD i []).getD j 0
          = (params.getD i []).getD j 0
            - o.learning_rate * (grads.getD i []).getD j 0)
    ∧ (Optimizer.new OptimizerType.SGD).step [[1, 2], [3, 4]]
        [[0.1, 0.2], [0.3, 0.4]]
      = some (Optimizer.new OptimizerType.SGD,
              [[0.9999, 1.9998], [2.9997, 3.9996]]) := by
  constructor
  · intro o params grads st out hty hstep
    rw [Optimizer.step, hty] at hstep
    rw [Optimizer.sgd_step] at hstep
    by_cases hsh : mShape params = mShape grads
    · rw [if_pos hsh] at hstep
      simp only [Option.map_some', Option.some.injEq, Prod.mk.injEq] at hstep
      refine ⟨hstep.1.symm, ?_⟩
      intro i j
      rw [← hstep.2]
      exact mZip_getD_zero _ (by ring) params grads hsh i j
    · rw [if_neg hsh] at hstep
      simp at hstep
  · show ((Optimizer.new OptimizerType.SGD).sgd_step [[1, 2], [3, 4]]
        [[0.1, 0.2], [0.3, 0.4]]).map
          (fun m => (Optimizer.new OptimizerType.SGD, m))
      = some (Optimizer.new OptimizerType.SGD,
              [[0.9999, 1.9998], [2.9997, 3.9996]])
    rw [Optimizer.sgd_step, if_pos (by simp [mShape])]
    simp only [Option.map_some', Option.some.injEq, Prod.mk.injEq]
    refine ⟨trivial, ?_⟩
    show mZip _ _ _ = _
    simp only [mZip, List.zipWith]
    norm_num [Optimizer.new, LEARNING_RATE]

/-- Witness for `sgd_step_correct`: applying the first part at the
concrete SGD step of the second part returns the optimizer unchanged. -/
theorem sgd_step_correct_witness :
    ((Optimizer.new OptimizerType.SGD).step [[1, 2], [3, 4]]
        [[0.1, 0.2], [0.3, 0.4]]).map Prod.fst
      = some (Optimizer.new OptimizerType.SGD) := by
  have h := sgd_step_correct
  have h1 := (h.1 (Optimizer.new OptimizerType.SGD) [[1, 2], [3, 4]]
      [[0.1, 0.2], [0.3, 0.4]] (Optimizer.new OptimizerType.SGD)
      [[0.9999, 1.9998], [2.9997, 3.9996]] rfl h.2).1
  rw [h.2]
  simp [h1]

/-- Claim C2: evaluation of `Optimizer::adam_step` at the repository's own
test input (params `[[1,2],[3,4]]`, grads `[[0.1,0.2],[0.3,0.4]]`, first
step).  The step increments the counter and the moment updates and bias
corrections follow the claim, but the parameter update divides by the
scalar `Σ_{i,j} (sqrt(m̂2[i,j]) + ε) = 1 + 4ε` — the sum over all entries —
so entry (0,0) becomes `1 - 0.001·0.1/(1+4ε)`, which differs from the
claimed elementwise update `1 - 0.001·0.1/(sqrt(m̂2[0,0]) + ε)` with
`m̂2[0,0] = 0.1²`.  The code contradicts its own inline comment
(`// Ensures element-wise operation`). -/
theorem adam_step_scalar_divisor_eval :
    ((Optimizer.new OptimizerType.Adam).adam_step [[1, 2], [3, 4]]
        [[0.1, 0.2], [0.3, 0.4]]).map (fun r => r.1.timestep) = some 1
    ∧ ((Optimizer.new OptimizerType.Adam).adam_step [[1, 2], [3, 4]]
        [[0.1, 0.2], [0.3, 0.4]]).map (fun r => (r.2.getD 0 []).getD 0 0)
      = some (1 - 0.001 * 0.1 / (1 + 4 * EPSILON))
    ∧ (1 : ℝ) - 0.001 * 0.1 / (1 + 4 * EPSILON)
      ≠ 1 - 0.001 * 0.1 / (Real.sqrt ((0.1 : ℝ) ^ 2) + EPSILON) := by
  have hsh : mShape [[(1 : ℝ), 2], [3, 4]] = mShape [[0.1, 0.2], [0.3, 0.4]] := by
    simp [mShape]
  have hz : zerosLike [[(1 : ℝ), 2], [3, 4]] = [[0, 0], [0, 0]] := by
    norm_num [zerosLike, mMap]
  have hm1 : mZip (fun m g => BETA1 * m + (1 - BETA1) * g)
      [[(0 : ℝ), 0], [0, 0]] [[0.1, 0.2], [0.3, 0.4]]
      = [[0.01, 0.02], [0.03, 0.04]] := by
    norm_num [mZip, BETA1]
  have hm2 : mZip (fun m g => BETA2 * m + (1 - BETA2) * g ^ 2)
      [[(0 : ℝ), 0], [0, 0]] [[0.1, 0.2], [0.3, 0.4]]
      = [[0.00001, 0.00004], [0.00009, 0.00016]] := by
    norm_num [mZip, BETA2]
  have hbc1 : mMap (fun m => m / (1 - BETA1 ^ (0 + 1)))
      [[(0.01 : ℝ), 0.02], [0.03, 0.04]] = [[0.1, 0.2], [0.3, 0.4]] := by
    norm_num [mMap, BETA1]
  have hbc2 : mMap (fun m => m / (1 - BETA2 ^ (0 + 1)))
      [[(0.00001 : ℝ), 0.00004], [0.00009, 0.00016]]
      = [[0.01, 0.04], [0.09, 0.16]] := by
    norm_num [mMap, BETA2]
  have hs1 : Real.sqrt 0.01 = 0.1 := by
    rw [show (0.01 : ℝ) = 0.1 ^ 2 by norm_num, Real.sqrt_sq (by norm_num : (0:ℝ) ≤ 0.1)]
  have hs2 : Real.sqrt 0.04 = 0.2 := by
    rw [show (0.04 : ℝ) = 0.2 ^ 2 by norm_num, Real.sqrt_sq (by norm_num : (0:ℝ) ≤ 0.2)]
  have hs3 : Real.sqrt 0.09 = 0.3 := by
    rw [show (0.09 : ℝ) = 0.3 ^ 2 by norm_num, Real.sqrt_sq (by norm_num : (0:ℝ) ≤ 0.3)]
  have hs4 : Real.sqrt 0.16 = 0.4 := by
    rw [show (0.16 : ℝ) = 0.4 ^ 2 by norm_num, Real.sqrt_sq (by norm_num : (0:ℝ) ≤ 0.4)]
  have hdiv : mSum (mMap (fun v => Real.sqrt v + EPSILON)
      [[(0.01 : ℝ), 0.04], [0.09, 0.16]]) = 1 + 4 * EPSILON := by
    simp only [mMap, mSum, List.map, List.sum_cons, List.sum_nil]
    rw [hs1, hs2, hs3, hs4]
    norm_num [EPSILON]
  refine ⟨?_, ?_, ?_⟩
  · rw [Optimizer.adam_step, if_pos hsh]
    simp [Optimizer.new]
  · rw [Optimizer.adam_step, if_pos hsh]
    simp only [Option.map_some']
    simp only [Optimizer.new, Option.getD_none]
    rw [hz, hm1, hm2, hbc1, hbc2, hdiv]
    norm_num [mZip, EPSILON, LEARNING_RATE]
  · rw [Real.sqrt_sq (by norm_num : (0:ℝ) ≤ 0.1)]
    norm_num [EPSILON]

theorem ten_thousand_rpow_quarter : (10000 : ℝ) ^ ((1 : ℝ) / (4 : ℝ)) = 10 := by
  rw [show (10000 : ℝ) = (10 : ℝ) ^ ((4 : ℕ) : ℝ) by
        rw [Real.rpow_natCast]; norm_num,
      ← Real.rpow_mul (by norm_num : (0 : ℝ) ≤ 10)]
  norm_num

/-- Claim C3 (counterexample): at sequence length 2, dimension 4, the
entry `(pos, i) = (1, 1)` of `position_encoding_calculator` is
`cos(1 / 10000^(1/4)) = cos(1/10)`, not the claimed
`cos(1 / 10000^(2⌊1/2⌋/4)) = cos 1`. -/
theorem position_encoding_exponent_cex :
    ((position_encoding_calculator 2 4).getD 1 []).getD 1 0
      ≠ Real.cos ((1 : ℝ) / (10000 : ℝ) ^ (((2 * (1 / 2) : ℕ) : ℝ) / (4 : ℝ))) := by
  have hL : ((position_encoding_calculator 2 4).getD 1 []).getD 1 0
      = Real.cos ((1 : ℝ) / 10) := by
    rw [position_encoding_calculator, range_map_getD 2 _ [] 1 (by norm_num),
        range_map_getD 4 _ 0 1 (by norm_num)]
    norm_num [ten_thousand_rpow_quarter]
  have hR : Real.cos ((1 : ℝ) / (10000 : ℝ) ^ (((2 * (1 / 2) : ℕ) : ℝ) / (4 : ℝ)))
      = Real.cos 1 := by
    norm_num
  rw [hL, hR]
  intro heq
  have h1 : (1 : ℝ) / 10 ∈ Set.Icc (0 : ℝ) (Real.pi) := by
    constructor
    · norm_num
    · have := Real.pi_gt_three; linarith
  have h2 : (1 : ℝ) ∈ Set.Icc (0 : ℝ) (Real.pi) := by
    constructor
    · norm_num
    · have := Real.pi_gt_three; linarith
  have := Real.injOn_cos h1 h2 heq
  norm_num at this

/-- Claim C3 (amended): `position_encoding_calculator L D` is an `L×D`
matrix whose entry `(pos, i)` is `sin(pos / 10000^(i/D))` for even `i`
and `cos(pos / 10000^(i/D))` for odd `i` — exponent `i/D`, not the
claimed `2⌊i/2⌋/D`; the variant `Embeddings::generate_positional_encodings`
does use the claimed exponent `2⌊i/2⌋/D`. -/
theorem position_encoding_amended (L D pos i : ℕ) (hpos : pos < L) (hi : i < D) :
    ((position_encoding_calculator L D).getD pos []).getD i 0
      = (if i % 2 = 0
          then Real.sin ((pos : ℝ) / (10000 : ℝ) ^ ((i : ℝ) / (D : ℝ)))
          else Real.cos ((pos : ℝ) / (10000 : ℝ) ^ ((i : ℝ) / (D : ℝ))))
    ∧ ((generate_positional_encodings D L).getD pos []).getD i 0
      = (if i % 2 = 0
          then Real.sin ((pos : ℝ) / (10000 : ℝ) ^ (((2 * (i / 2) : ℕ) : ℝ) / (D : ℝ)))
          else Real.cos ((pos : ℝ) / (10000 : ℝ) ^ (((2 * (i / 2) : ℕ) : ℝ) / (D : ℝ))))
    ∧ (position_encoding_calculator L D).length = L
    ∧ ((position_encoding_calculator L D).getD pos []).length = D := by
  refine ⟨?_, ?_, ?_, ?_⟩
  · rw [position_encoding_calculator, range_map_getD L _ [] pos hpos,
        range_map_getD D _ 0 i hi]
  · rw [generate_positional_encodings, range_map_getD L _ [] pos hpos,
        range_map_getD D _ 0 i hi]
  · simp [position_encoding_calculator]
  · rw [position_encoding_calculator, range_map_getD L _ [] pos hpos]
    simp

/-- Witness for `position_encoding_amended` at `L = 2`, `D = 4`,
`(pos, i) = (0, 0)`: both encodings give `sin 0` there. -/
theorem position_encoding_amended_witness :
    ((position_encoding_calculator 2 4).getD 0 []).getD 0 0 = Real.sin 0
      ∧ ((generate_positional_encodings 4 2).getD 0 []).getD 0 0 = Real.sin 0 := by
  have h := position_encoding_amended 2 4 0 0 (by norm_num) (by norm_num)
  constructor
  · rw [h.1]; norm_num
  · rw [h.2.1]; norm_num

/-- Claim C4 (counterexample): on the constant row `[1, 1]` (length 2,
gamma ones, beta zeros, the repository's test epsilon `1e-5`) the
normalized output is `[0, 0]`, whose biased variance is 0, not 1 within
the epsilon tolerance: the claim fails for rows with zero input
variance. -/
theorem layer_norm_constant_input_cex :
    ¬ |listVar (apply_layer_norm [1, 1] 0.00001 [1, 1] [0, 0]) - 1| ≤ 0.00001 := by
  have hout : apply_layer_norm [1, 1] 0.00001 [1, 1] [0, 0] = [0, 0] := by
    have h := layer_norm_ones_zeros [1, 1] 0.00001
    simp only [show (List.replicate ([(1:ℝ), 1]).length (1:ℝ)) = [1, 1] by rfl,
               show (List.replicate ([(1:ℝ), 1]).length (0:ℝ)) = [0, 0] by rfl] at h
    rw [h]
    have hm : listMean [(1:ℝ), 1] = 1 := by
      norm_num [listMean]
    simp [hm]
  rw [hout]
  norm_num [listVar, listMean]

/-- Claim C4 (amended): for every row `x` of length ≥ 2 with strictly
positive biased variance `σ²`, every `ε > 0`, gamma all ones and beta all
zeros, `apply_layer_norm` yields mean exactly 0 and biased variance
`σ²/(σ²+ε)`, which is within `ε/σ²` of 1; rows of zero variance (all
entries equal) instead normalize to the zero vector, whose variance is 0,
not ≈ 1. -/
theorem layer_norm_amended (x : List ℝ) (ε : ℝ) (hlen : 2 ≤ x.length)
    (hε : 0 < ε) (hv : 0 < listVar x) :
    listMean (apply_layer_norm x ε
        (List.replicate x.length 1) (List.replicate x.length 0)) = 0
    ∧ listVar (apply_layer_norm x ε
        (List.replicate x.length 1) (List.replicate x.length 0))
      = listVar x / (listVar x + ε)
    ∧ |listVar (apply_layer_norm x ε
        (List.replicate x.length 1) (List.replicate x.length 0)) - 1|
      ≤ ε / listVar x := by
  have hn : (0 : ℝ) < (x.length : ℝ) := by
    have : (0 : ℕ) < x.length := lt_of_lt_of_le (by norm_num) hlen
    exact_mod_cast this
  have hσε : 0 < listVar x + ε := by linarith
  have hcsq : Real.sqrt (listVar x + ε) ^ 2 = listVar x + ε := Real.sq_sqrt hσε.le
  rw [layer_norm_ones_zeros x ε]
  have hsum : (x.map (fun t => (t - listMean x) / Real.sqrt (listVar x + ε))).sum = 0 := by
    rw [sum_map_div x (fun t => t - listMean x) (Real.sqrt (listVar x + ε)),
        sum_map_sub]
    have : (x.length : ℝ) * listMean x = x.sum := by
      rw [listMean]
      field_simp
    rw [this]
    simp
  have hmean : listMean (x.map (fun t => (t - listMean x) / Real.sqrt (listVar x + ε))) = 0 := by
    rw [listMean, hsum, zero_div]
  have hvar : listVar (x.map (fun t => (t - listMean x) / Real.sqrt (listVar x + ε)))
      = listVar x / (listVar x + ε) := by
    rw [listVar, hmean]
    simp only [sub_zero, List.map_map]
    have hcomp : ((fun t => t ^ 2) ∘ fun t => (t - listMean x) / Real.sqrt (listVar x + ε))
        = fun t => (t - listMean x) ^ 2 / Real.sqrt (listVar x + ε) ^ 2 := by
      funext t
      simp [div_pow]
    rw [hcomp, hcsq, sum_map_div x (fun t => (t - listMean x) ^ 2) (listVar x + ε),
        List.length_map]
    rw [div_div, mul_comm, ← div_div]
    rw [show (x.map (fun t => (t - listMean x) ^ 2)).sum / (x.length : ℝ) = listVar x
          from rfl]
  refine ⟨hmean, hvar, ?_⟩
  rw [hvar]
  have heq : listVar x / (listVar x + ε) - 1 = -(ε / (listVar x + ε)) := by
    field_simp
  rw [heq, abs_neg, abs_of_nonneg (div_nonneg hε.le hσε.le)]
  gcongr
  linarith

/-- Witness for `layer_norm_amended` at `x = [0, 2]`, `ε = 1`: the input
variance is 1, and the output has mean 0 and variance `1/2`, within
`1/1 = 1` of 1. -/
theorem layer_norm_amended_witness :
    listMean (apply_layer_norm [0, 2] 1 [1, 1] [0, 0]) = 0
    ∧ listVar (apply_layer_norm [0, 2] 1 [1, 1] [0, 0]) = 1 / 2 := by
  have hv : listVar [(0 : ℝ), 2] = 1 := by
    norm_num [listVar, listMean]
  have h := layer_norm_amended [0, 2] 1 (by norm_num) (by norm_num) (by rw [hv]; norm_num)
  simp only [show (List.replicate ([(0:ℝ), 2]).length (1:ℝ)) = [1, 1] by rfl,
             show (List.replicate ([(0:ℝ), 2]).length (0:ℝ)) = [0, 0] by rfl, hv] at h
  exact ⟨h.1, by rw [h.2.1]; norm_num⟩

/-- Claim C5 (counterexample): the `Array2` implementation in
attention_mechanism.rs has no emptiness assertion: on an empty query
(0×2, zero elements) with K and V of shape 1×2, both dimension checks
pass and a result is returned instead of a precondition failure. -/
theorem attention_empty_input_cex :
    (am_scaled_dot_product_attention ⟨0, 2, fun _ _ => 0⟩ ⟨1, 2, fun _ _ => 0⟩
        ⟨1, 2, fun _ _ => 0⟩).isSome = true := by
  simp [am_scaled_dot_product_attention]

/-- Claim C5 (amended): the `Vec<Vec<f32>>` implementation (attention.rs)
fails exactly when an input is empty, Q and K differ in column count, or
K and V differ in row count, and succeeds otherwise; the `Array2`
implementation (attention_mechanism.rs) checks only the two dimension
equalities, so it does not fail on empty inputs that satisfy them. -/
theorem attention_precondition_amended :
    (∀ q k v : List (List ℝ),
        scaled_dot_product_attention q k v = none
          ↔ (q = [] ∨ k = [] ∨ v = []
              ∨ (q.headD []).length ≠ (k.headD []).length
              ∨ k.length ≠ v.length))
    ∧ (∀ q k v : Mat,
        am_scaled_dot_product_attention q k v = none
          ↔ (q.cols ≠ k.cols ∨ k.rows ≠ v.rows)) := by
  constructor
  · intro q k v
    rw [scaled_dot_product_attention]
    split_ifs with h1 h2 h3
    · simp only [List.isEmpty_iff] at h1
      exact iff_of_true rfl (by tauto)
    · exact iff_of_true rfl (Or.inr (Or.inr (Or.inr (Or.inl h2))))
    · exact iff_of_true rfl (Or.inr (Or.inr (Or.inr (Or.inr h3))))
    · simp only [List.isEmpty_iff] at h1
      push_neg at h1
      exact iff_of_false (by simp) (by tauto)
  · intro q k v
    rw [am_scaled_dot_product_attention]
    split_ifs with h1 h2
    · exact iff_of_true rfl (Or.inl h1)
    · exact iff_of_true rfl (Or.inr h2)
    · exact iff_of_false (by simp) (by tauto)

/-- Witness for `attention_precondition_amended`: on the non-empty,
dimension-compatible input Q = K = V = `[[1]]` the f32 implementation
returns a result. -/
theorem attention_precondition_amended_witness :
    (scaled_dot_product_attention [[(1 : ℝ)]] [[1]] [[1]]).isSome = true := by
  have h := attention_precondition_amended.1 [[(1 : ℝ)]] [[1]] [[1]]
  rw [← Option.ne_none_iff_isSome]
  rw [Ne, h]
  simp

theorem getD_eq_get {α : Type} (l : List α) (d : α) (i : ℕ) (h : i < l.length) :
    l.getD i d = l.get ⟨i, h⟩ := by
  rw [List.getD_eq_getElem?_getD, List.getElem?_eq_getElem h]
  rfl

theorem sum_exp_pos (m : ℝ) (row : List ℝ) (h : row ≠ []) :
    0 < (row.map (fun v => Real.exp (v - m))).sum := by
  cases row with
  | nil => exact absurd rfl h
  | cons a l =>
      simp only [List.map_cons, List.sum_cons]
      refine add_pos_of_pos_of_nonneg (Real.exp_pos _) ?_
      refine List.sum_nonneg ?_
      intro x hx
      simp only [List.mem_map] at hx
      obtain ⟨v, -, rfl⟩ := hx
      exact (Real.exp_pos _).le

theorem stableSoftmaxRow_length (init : ℝ) (row : List ℝ) :
    (stableSoftmaxRow init row).length = row.length := by
  simp [stableSoftmaxRow]

theorem stableSoftmaxRow_sum (init : ℝ) (row : List ℝ) (h : row ≠ []) :
    (stableSoftmaxRow init row).sum = 1 := by
  rw [stableSoftmaxRow]
  rw [sum_map_div row (fun v => Real.exp (v - row.foldl max init)) _]
  exact div_self (ne_of_gt (sum_exp_pos _ row h))

theorem mapIdx_ite_sub_one_sum (row : List ℝ) (P : ℕ → Prop) [DecidablePred P]
    (j0 : ℕ) (hj : j0 < row.length) (hP : ∀ j, P j ↔ j = j0) :
    (row.mapIdx (fun j p => if P j then p - 1 else p)).sum = row.sum - 1 := by
  rw [List.mapIdx_eq_ofFn, List.sum_ofFn]
  have hrow : row.sum = ∑ i : Fin row.length, row.get i := by
    conv_lhs => rw [← List.ofFn_get row]
    rw [List.sum_ofFn]
  rw [hrow]
  calc (∑ i : Fin row.length, if P (i : ℕ) then row.get i - 1 else row.get i)
      = ∑ i : Fin row.length,
          (row.get i - if (i : ℕ) = j0 then (1 : ℝ) else 0) := by
        refine Finset.sum_congr rfl (fun i _ => ?_)
        by_cases h : P (i : ℕ)
        · rw [if_pos h, if_pos ((hP _).mp h)]
        · rw [if_neg h, if_neg (fun he => h ((hP _).mpr he)), sub_zero]
    _ = (∑ i : Fin row.length, row.get i)
          - ∑ i : Fin row.length, (if (i : ℕ) = j0 then (1 : ℝ) else 0) :=
        Finset.sum_sub_distrib
    _ = (∑ i : Fin row.length, row.get i) - 1 := by
        congr 1
        have hre : (∑ i : Fin row.length, if (i : ℕ) = j0 then (1 : ℝ) else 0)
            = ∑ i : Fin row.length,
                (if i = (⟨j0, hj⟩ : Fin row.length) then (1 : ℝ) else 0) := by
          refine Finset.sum_congr rfl (fun i _ => ?_)
          congr 1
          simp [Fin.ext_iff]
        rw [hre]
        simp

/-- Claim C10: for one in-range label per logit row, every row of
`Loss::gradients` sums to exactly zero: each softmax row sums to 1,
exactly 1 is subtracted at the true-class column, and dividing the row by
the batch size preserves the zero sum. -/
theorem gradients_rows_sum_zero (logits : List (List ℝ)) (labels : List ℕ)
    (hlen : labels.length = logits.length)
    (hlab : ∀ i, i < labels.length → labels.getD i 0 < (logits.getD i []).length) :
    (Loss.gradients logits labels).map List.sum
      = List.replicate logits.length 0 := by
  apply List.ext_get
  · simp [Loss.gradients, Loss.softmax]
  · intro i h1 h2
    have hi : i < logits.length := by
      simpa [Loss.gradients, Loss.softmax] using h1
    have hil : i < labels.length := by rw [hlen]; exact hi
    have hiS : i < (Loss.softmax logits).length := by simp [Loss.softmax, hi]
    simp only [Loss.gradients]
    rw [List.get_replicate, List.get_map, List.get_map, List.get_mapIdx _ _ _ hiS]
    have hsoft : (Loss.softmax logits).get ⟨i, hiS⟩
        = stableSoftmaxRow f64MIN (logits.get ⟨i, hi⟩) := by
      simp [Loss.softmax]
    rw [hsoft]
    have hrowlen : labels.getD i 0
        < (stableSoftmaxRow f64MIN (logits.get ⟨i, hi⟩)).length := by
      rw [stableSoftmaxRow_length, ← getD_eq_get logits [] i hi]
      exact hlab i hil
    have hsub := mapIdx_ite_sub_one_sum
      (stableSoftmaxRow f64MIN (logits.get ⟨i, hi⟩))
      (fun j => i < labels.length ∧ j = labels.getD i 0)
      (labels.getD i 0) hrowlen (fun j => by simp [hil])
    have hdiv := sum_map_div
      ((stableSoftmaxRow f64MIN (logits.get ⟨i, hi⟩)).mapIdx
        (fun j p => if i < labels.length ∧ j = labels.getD i 0 then p - 1 else p))
      (fun t => t) ((labels.length : ℝ))
    simp only [List.map_id'] at hdiv
    rw [hdiv, hsub, stableSoftmaxRow_sum _ _ ?_]
    · norm_num
    · have : 0 < (logits.get ⟨i, hi⟩).length := by
        have := hlab i hil
        rw [getD_eq_get logits [] i hi] at this
        omega
      exact List.length_pos.mp this

/-- Witness for `gradients_rows_sum_zero` at logits `[[1,2],[3,4]]`,
labels `[1,0]`: both gradient rows sum to zero. -/
theorem gradients_rows_sum_zero_witness :
    (Loss.gradients [[1, 2], [3, 4]] [1, 0]).map List.sum = [0, 0] := by
  have h := gradients_rows_sum_zero [[1, 2], [3, 4]] [1, 0] rfl ?_
  · simpa using h
  · intro i hi
    match i, hi with
    | 0, _ => simp
    | 1, _ => simp

theorem f64MIN_le_one : f64MIN ≤ (1 : ℝ) := by
  rw [f64MIN]
  norm_num

theorem cross_entropy_test_value :
    (Loss.cross_entropy_loss [[1, 2, 3], [1, 1, 1]] [2, 1]).getD 0
      = (Real.log (Real.exp (-2) + (Real.exp (-1) + 1)) + Real.log 3) / 2 := by
  have hm0 : List.foldl max f64MIN [(1 : ℝ), 2, 3] = 3 := by
    simp only [List.foldl]
    rw [max_eq_right f64MIN_le_one, max_eq_right (by norm_num : (1 : ℝ) ≤ 2),
        max_eq_right (by norm_num : (2 : ℝ) ≤ 3)]
  have hm1 : List.foldl max f64MIN [(1 : ℝ), 1, 1] = 1 := by
    simp only [List.foldl]
    rw [max_eq_right f64MIN_le_one, max_self, max_self]
  rw [Loss.cross_entropy_loss, if_pos (by norm_num)]
  rw [Option.getD_some]
  simp only [Loss.softmax, List.map_cons, List.map_nil, stableSoftmaxRow, hm0, hm1]
  norm_num [Real.exp_zero, List.mapIdx_cons]
  rw [one_div, Real.log_inv]
  ring

theorem cross_entropy_test_value_bounds :
    (0.7530 : ℝ) ≤ (Real.log (Real.exp (-2) + (Real.exp (-1) + 1)) + Real.log 3) / 2
    ∧ (Real.log (Real.exp (-2) + (Real.exp (-1) + 1)) + Real.log 3) / 2
        ≤ 0.7532 := by
  have he1 := Real.exp_one_gt_d9
  have he2 := Real.exp_one_lt_d9
  have hepos := Real.exp_pos 1
  have hi1lo : (0.3678794411 : ℝ) < Real.exp (-1) := by
    rw [Real.exp_neg]
    calc (0.3678794411 : ℝ) < (2.7182818286 : ℝ)⁻¹ := by norm_num
      _ < (Real.exp 1)⁻¹ := inv_strictAnti₀ hepos he2
  have hi1hi : Real.exp (-1) < 0.3678794412 := by
    rw [Real.exp_neg]
    calc (Real.exp 1)⁻¹ < (2.7182818283 : ℝ)⁻¹ := inv_strictAnti₀ (by norm_num) he1
      _ < 0.3678794412 := by norm_num
  have hsq : Real.exp (-2 : ℝ) = ((Real.exp 1) ^ 2)⁻¹ := by
    rw [Real.exp_neg, Real.exp_one_pow]
    norm_num
  have hi2lo : (0.1353352832 : ℝ) < Real.exp (-2) := by
    rw [hsq]
    have h2 : (Real.exp 1) ^ 2 < 2.7182818286 ^ 2 := by nlinarith
    calc (0.1353352832 : ℝ) < ((2.7182818286 : ℝ) ^ 2)⁻¹ := by norm_num
      _ < ((Real.exp 1) ^ 2)⁻¹ := inv_strictAnti₀ (by positivity) h2
  have hi2hi : Real.exp (-2) < 0.1353352833 := by
    rw [hsq]
    have h2 : (2.7182818283 : ℝ) ^ 2 < (Real.exp 1) ^ 2 := by nlinarith
    calc ((Real.exp 1) ^ 2)⁻¹ < ((2.7182818283 : ℝ) ^ 2)⁻¹ :=
          inv_strictAnti₀ (by norm_num) h2
      _ < 0.1353352833 := by norm_num
  set s0 := Real.exp (-2) + (Real.exp (-1) + 1) with hs0
  have hs0pos : 0 < s0 := by
    rw [hs0]
    positivity
  have hzlo : (4.5096441729 : ℝ) ≤ 3 * s0 := by
    rw [hs0]
    linarith
  have hzhi : 3 * s0 ≤ 4.5096441735 := by
    rw [hs0]
    linarith
  have hA2 : Real.exp ((3 : ℝ) / 2) ^ 2 = Real.exp 3 := by
    rw [sq, ← Real.exp_add]
    norm_num
  have hApos : 0 < Real.exp ((3 : ℝ) / 2) := Real.exp_pos _
  have he3 : Real.exp (3 : ℝ) = Real.exp 1 ^ 3 := by
    rw [Real.exp_one_pow]
    norm_num
  have he3lo : (2.7182818283 : ℝ) ^ 3 < Real.exp 3 := by
    rw [he3]
    nlinarith
  have he3hi : Real.exp 3 < (2.7182818286 : ℝ) ^ 3 := by
    rw [he3]
    nlinarith
  have hAs : Real.exp ((3 : ℝ) / 2) = Real.sqrt (Real.exp 3) := by
    rw [← hA2, Real.sqrt_sq hApos.le]
  have hAlo : (4.48168906 : ℝ) ≤ Real.exp ((3 : ℝ) / 2) := by
    rw [hAs, show (4.48168906 : ℝ) = Real.sqrt (4.48168906 ^ 2) from
          (Real.sqrt_sq (by norm_num)).symm]
    apply Real.sqrt_le_sqrt
    have hr : (4.48168906 : ℝ) ^ 2 ≤ (2.7182818283 : ℝ) ^ 3 := by norm_num
    linarith
  have hAhi : Real.exp ((3 : ℝ) / 2) ≤ 4.48168908 := by
    rw [hAs, show (4.48168908 : ℝ) = Real.sqrt (4.48168908 ^ 2) from
          (Real.sqrt_sq (by norm_num)).symm]
    apply Real.sqrt_le_sqrt
    have hr : (2.7182818286 : ℝ) ^ 3 ≤ (4.48168908 : ℝ) ^ 2 := by norm_num
    linarith
  have hzpos : (0 : ℝ) < 3 * s0 := by linarith
  have hqpos : 0 < 3 * s0 / Real.exp ((3 : ℝ) / 2) := div_pos hzpos hApos
  have hqhi : 3 * s0 / Real.exp ((3 : ℝ) / 2) ≤ (4.5096441735 : ℝ) / (4.48168906 : ℝ) :=
    div_le_div (by norm_num) hzhi (by norm_num) hAlo
  have hqinv_hi : (3 * s0 / Real.exp ((3 : ℝ) / 2))⁻¹
      ≤ (4.48168908 : ℝ) / (4.5096441729 : ℝ) := by
    rw [inv_div]
    exact div_le_div (by norm_num) hAhi (by norm_num) hzlo
  have hlogq_hi : Real.log (3 * s0 / Real.exp ((3 : ℝ) / 2))
      ≤ 3 * s0 / Real.exp ((3 : ℝ) / 2) - 1 := Real.log_le_sub_one_of_pos hqpos
  have hlogq_lo : 1 - (3 * s0 / Real.exp ((3 : ℝ) / 2))⁻¹
      ≤ Real.log (3 * s0 / Real.exp ((3 : ℝ) / 2)) := by
    have h := Real.log_le_sub_one_of_pos (inv_pos.mpr hqpos)
    rw [Real.log_inv] at h
    linarith
  have hAzq : Real.exp ((3 : ℝ) / 2) * (3 * s0 / Real.exp ((3 : ℝ) / 2)) = 3 * s0 := by
    field_simp
  have hlogz : Real.log (3 * s0)
      = 3 / 2 + Real.log (3 * s0 / Real.exp ((3 : ℝ) / 2)) := by
    rw [← hAzq, Real.log_mul (ne_of_gt hApos) (ne_of_gt hqpos), Real.log_exp, hAzq]
  have hlogz_lo : (1.5060 : ℝ) ≤ Real.log (3 * s0) := by
    rw [hlogz]
    have h2 : (1.5060 : ℝ) ≤ 3 / 2 + (1 - (4.48168908 : ℝ) / (4.5096441729 : ℝ)) := by
      norm_num
    linarith
  have hlogz_hi : Real.log (3 * s0) ≤ 1.5064 := by
    rw [hlogz]
    have h2 : 3 / 2 + ((4.5096441735 : ℝ) / (4.48168906 : ℝ) - 1) ≤ (1.5064 : ℝ) := by
      norm_num
    linarith
  have hzz : Real.log (3 * s0) = Real.log s0 + Real.log 3 := by
    rw [Real.log_mul (by norm_num) (ne_of_gt hs0pos)]
    ring
  rw [hzz] at hlogz_lo hlogz_hi
  constructor
  · linarith
  · linarith

/-- Claim C6 (counterexample): on logits `[[1,2,3],[1,1,1]]` and labels
`[2,1]` the loss is `(ln(1 + e⁻¹ + e⁻²) + ln 3)/2 ≈ 0.7531`, which is not
within `1e-4` of the claimed `0.7136` (the repository's own
`test_cross_entropy_loss` expectation is wrong about its code). -/
theorem cross_entropy_value_cex :
    ¬ |(Loss.cross_entropy_loss [[1, 2, 3], [1, 1, 1]] [2, 1]).getD 0 - 0.7136|
        ≤ 0.0001 := by
  rw [cross_entropy_test_value]
  intro habs
  rw [abs_le] at habs
  have h := cross_entropy_test_value_bounds.1
  linarith [habs.2]

/-- Claim C6 (amended): `cross_entropy_loss` succeeds exactly when the
label count equals the logit row count and each label is a valid class
index, returning the negative mean log softmax probability of the true
class; for logits `[[1,2,3],[1,1,1]]` and labels `[2,1]` it returns
approximately 0.7531 (within 1e-4), not 0.7136. -/
theorem cross_entropy_amended :
    (∀ (logits : List (List ℝ)) (labels : List ℕ),
        (Loss.cross_entropy_loss logits labels).isSome = true
          ↔ (logits.length = labels.length
              ∧ ∀ l ∈ labels, l < (logits.headD []).length))
    ∧ |(Loss.cross_entropy_loss [[1, 2, 3], [1, 1, 1]] [2, 1]).getD 0 - 0.7531|
        ≤ 0.0001 := by
  constructor
  · intro logits labels
    rw [Loss.cross_entropy_loss]
    split_ifs with h
    · simpa using h
    · simpa using h
  · rw [cross_entropy_test_value]
    have h := cross_entropy_test_value_bounds
    rw [abs_le]
    exact ⟨by linarith [h.1], by linarith [h.2]⟩

/-- Witness for `cross_entropy_amended`: with one logit row and an empty
label list the precondition fails, so no loss value is produced. -/
theorem cross_entropy_amended_witness :
    (Loss.cross_entropy_loss [[(0 : ℝ)]] []).isSome = false := by
  have h := cross_entropy_amended.1 [[(0 : ℝ)]] []
  by_cases hs : (Loss.cross_entropy_loss [[(0 : ℝ)]] []).isSome = true
  · obtain ⟨h3, -⟩ := h.mp hs
    simp at h3
  · simpa using hs

/-- Claim C7: evaluation of `Embeddings::encode` at the failing input.
Over a vocabulary holding the configured special tokens (`[PAD]` ↦ 0,
`[UNK]` ↦ 1), the out-of-range token id 2 is mapped to **row 0** (the
`[PAD]` row `[1, 0]`, giving `[[1, 1]]` after positional encoding)
because the code looks up the hard-coded string `"<UNK>"`, which is
absent, and falls back to index 0 — not to the unknown-token row
`[5, 7]` (which would give `[[5, 8]]`) as the claim states. -/
theorem encode_unk_fallback_eval :
    unkDemoEmbeddings.encode [2] = [[1, 1]]
    ∧ unkDemoEmbeddings.vocab ("<UNK>") = none
    ∧ unkDemoEmbeddings.vocab UNK_TOKEN = some 1
    ∧ unkDemoEmbeddings.token_embedding_matrix.getD 1 [] = [5, 7]
    ∧ ([[(1 : ℝ), 1]] : List (List ℝ)) ≠ [[5 + Real.sin 0, 7 + Real.cos 0]] := by
  have hv : unkDemoEmbeddings.vocab ("<UNK>") = none := by decide
  have hpe : generate_positional_encodings 2 1 = [[Real.sin 0, Real.cos 0]] := by
    rw [generate_positional_encodings]
    rw [show List.range 1 = [0] from rfl, show List.range 2 = [0, 1] from rfl]
    norm_num
  refine ⟨?_, hv, by decide, by rfl, ?_⟩
  · rw [Embeddings.encode]
    rw [show unkDemoEmbeddings.model_dim = 2 from rfl,
        show ([2] : List ℕ).length = 1 from rfl, hpe]
    rw [show ([2] : List ℕ).map (fun token_idx =>
          if token_idx < unkDemoEmbeddings.token_embedding_matrix.length then
            unkDemoEmbeddings.token_embedding_matrix.getD token_idx []
          else
            unkDemoEmbeddings.token_embedding_matrix.getD
              ((unkDemoEmbeddings.vocab ("<UNK>")).getD 0) [])
        = [[1, 0]] by rw [List.map_cons, List.map_nil, if_neg (by decide), hv]; rfl]
    simp [mZip, Real.sin_zero, Real.cos_zero]
  · intro h
    rw [Real.sin_zero, Real.cos_zero] at h
    norm_num at h

/-- Claim C9: whenever a batch entry is the empty (zero-length) sequence,
`Transformer::average_pooling` returns the zero vector of length
`d_model` for that entry, via the explicit empty-sequence branch; the
division by the sequence length is confined to the non-empty branch. -/
theorem average_pooling_empty_seq (d_model : ℕ) (batch : List (List (List ℝ)))
    (i : ℕ) (h : batch[i]? = some []) :
    (average_pooling d_model batch)[i]? = some (List.replicate d_model 0) := by
  rw [average_pooling, List.getElem?_map, h]
  simp

/-- Witness for `average_pooling_empty_seq`: a one-sequence batch whose
sequence is empty pools to the zero vector of length 3. -/
theorem average_pooling_empty_seq_witness :
    (average_pooling 3 [[]])[0]? = some (List.replicate 3 0) :=
  average_pooling_empty_seq 3 [[]] 0 rfl
